import Mathlib

set_option maxHeartbeats 1000000

/-
Verification of outage-bot (src/index.js) against its natural-language
specification.  The program is embedded shallowly: filesystem marker state is
a list of keys, asynchronous effects are explicit values and traces, and the
PEM boundary scanner of connectIRCClient is modelled as a character-list
scanner that mirrors the regex
  -{5}(BEGIN|END)\s(PRIVATE\sKEY|CERTIFICATE)-{5}
used with String.prototype.matchAll.
-/

/-! ## Certificate material extractor (src/index.js, connectIRCClient, lines 73-106) -/

inductive BState
| isBegin
| isEnd
deriving DecidableEq

inductive PType
| privateKey
| certificate
deriving DecidableEq

/-- The single whitespace character class \s of the boundary regex
(the common whitespace code points). -/
def isJsWS (c : Char) : Bool :=
  c == ' ' || c == '\t' || c == '\n' || c == '\r' || c == '\x0B' || c == '\x0C'

/-- Strip an exact expected character sequence from the front of the input,
returning the remainder when every character matches. -/
def stripP : List Char → List Char → Option (List Char)
| [], l => some l
| _ :: _, [] => none
| p :: ps, c :: cs => if p = c then stripP ps cs else none

def dashes5 : List Char := ['-', '-', '-', '-', '-']

def beginW : List Char := ['B', 'E', 'G', 'I', 'N']

def endW : List Char := ['E', 'N', 'D']

def privW : List Char := ['P', 'R', 'I', 'V', 'A', 'T', 'E']

def keyW : List Char := ['K', 'E', 'Y']

def certW : List Char := ['C', 'E', 'R', 'T', 'I', 'F', 'I', 'C', 'A', 'T', 'E']

/-- The (PRIVATE\sKEY|CERTIFICATE)-{5} tail of the boundary pattern.  The
regex tries the PRIVATE\sKEY alternative first; since the alternatives differ
at their first character, the sequential try below is equivalent to the regex
with backtracking. -/
def matchType (l : List Char) : Option (PType × List Char) :=
  match stripP privW l with
  | some (c :: l2) =>
    if isJsWS c then
      match stripP keyW l2 with
      | some l3 =>
        match stripP dashes5 l3 with
        | some r => some (PType.privateKey, r)
        | none => none
      | none => none
    else none
  | some [] => none
  | none =>
    match stripP certW l with
    | some l2 =>
      match stripP dashes5 l2 with
      | some r => some (PType.certificate, r)
      | none => none
    | none => none

/-- The (BEGIN|END) alternative of the boundary pattern. -/
def matchState (l : List Char) : Option (BState × List Char) :=
  match stripP beginW l with
  | some l1 => some (BState.isBegin, l1)
  | none =>
    match stripP endW l with
    | some l1 => some (BState.isEnd, l1)
    | none => none

/-- Try the whole boundary pattern at the current position; on success return
the classification of the match together with the unconsumed remainder of the
input. -/
def matchHere (l : List Char) : Option (BState × PType × List Char) :=
  match stripP dashes5 l with
  | none => none
  | some l1 =>
    match matchState l1 with
    | none => none
    | some (st, l2) =>
      match l2 with
      | [] => none
      | c :: l3 =>
        if isJsWS c then
          match matchType l3 with
          | none => none
          | some (ty, l4) => some (st, ty, l4)
        else none

/-- Length of the matched boundary string (boundStr.length in the source).
Both type alternatives have eleven characters (PRIVATE\sKEY and CERTIFICATE),
so the length depends only on BEGIN (5) versus END (3):
10 dashes + state word + 1 whitespace + 11 type characters. -/
def boundLen : BState → Nat
| BState.isBegin => 27
| BState.isEnd => 25

structure PemMatch where
  idx : Nat
  stop : Nat
  state : BState
  ptype : PType
deriving DecidableEq

/-- matchAll over the input: scan left to right; after a match continue right
after its end (the regex lastIndex), otherwise advance one character.  Fuel is
the remaining input length, which suffices because every step consumes at
least one character. -/
def scanAux : Nat → List Char → Nat → List PemMatch
| 0, _, _ => []
| _ + 1, [], _ => []
| f + 1, c :: cs, i =>
  match matchHere (c :: cs) with
  | some (st, ty, rest) =>
    { idx := i, stop := i + boundLen st, state := st, ptype := ty } ::
      scanAux f rest (i + boundLen st)
  | none => scanAux f cs (i + 1)

def scanPem (l : List Char) : List PemMatch := scanAux l.length l 0

/-- The state the source keeps per block type in elems: the initial empty
object, an object holding only a start offset, or (after an END match) the
extracted substring.  In JavaScript the first two are truthy objects and the
third is a string, falsy only when empty. -/
inductive Elem
| emptyE
| startedE (start : Nat)
| doneE (block : List Char)
deriving DecidableEq

structure Elems where
  private_key : Elem
  certificate : Elem
deriving DecidableEq

def Elems.get : Elems → PType → Elem
| es, PType.privateKey => es.private_key
| es, PType.certificate => es.certificate

def Elems.set : Elems → PType → Elem → Elems
| es, PType.privateKey, e => { es with private_key := e }
| es, PType.certificate, e => { es with certificate := e }

/-- One iteration of the for-of loop over the boundary matches.  On BEGIN the
source throws when a private-key BEGIN is not at offset 0, then assigns
elems[type].start; in strict mode that assignment throws a TypeError when the
slot already holds a string.  On END, a slot whose .start is undefined (the
initial object or a completed string) raises the bad-start error; otherwise
the slot becomes certFile.substring(start, match.index + boundStr.length). -/
def pemStep (file : List Char) (es : Elems) (m : PemMatch) : Except String Elems :=
  match m.state with
  | BState.isBegin =>
    if m.ptype = PType.privateKey ∧ m.idx ≠ 0 then Except.error "pk start"
    else
      match es.get m.ptype with
      | Elem.doneE _ => Except.error "TypeError"
      | _ => Except.ok (es.set m.ptype (Elem.startedE m.idx))
  | BState.isEnd =>
    match es.get m.ptype with
    | Elem.startedE s0 =>
      Except.ok (es.set m.ptype (Elem.doneE ((file.drop s0).take (m.stop - s0))))
    | _ => Except.error "bad start!"

def pemFold (file : List Char) : List PemMatch → Elems → Except String Elems
| [], es => Except.ok es
| m :: ms, es =>
  match pemStep file es m with
  | Except.error e => Except.error e
  | Except.ok es2 => pemFold file ms es2

/-- Object.values(elems).some(x => !x): the only falsy value an elems slot can
hold is an empty extracted string; the initial object and the started object
are truthy. -/
def elemFalsy : Elem → Bool
| Elem.doneE [] => true
| _ => false

/-- The certificate-material extraction of connectIRCClient: scan all boundary
matches, fold the loop body over them, then apply the final
some(x => !x) check that guards the bad-cert-parse error. -/
def extractCert (file : List Char) : Except String Elems :=
  match pemFold file (scanPem file) { private_key := Elem.emptyE, certificate := Elem.emptyE } with
  | Except.error e => Except.error e
  | Except.ok es =>
    if elemFalsy es.private_key || elemFalsy es.certificate then Except.error "bad cert parse"
    else Except.ok es

def pkBeginM : List Char := dashes5 ++ beginW ++ [' '] ++ privW ++ [' '] ++ keyW ++ dashes5

def pkEndM : List Char := dashes5 ++ endW ++ [' '] ++ privW ++ [' '] ++ keyW ++ dashes5

def certBeginM : List Char := dashes5 ++ beginW ++ [' '] ++ certW ++ dashes5

def certEndM : List Char := dashes5 ++ endW ++ [' '] ++ certW ++ dashes5

/-! ## Feed items, adapters and fingerprints (src/index.js, lines 17-60) -/

/-- One raw feed entry as the external RSS fetcher returns it.  A field the
entry does not carry reads as undefined, modelled as none. -/
structure RawItem where
  pubDate : Option String
  isoDate : Option String
  guid : Option String
  id : Option String
  title : Option String
  link : Option String
deriving DecidableEq

/-- A feed item as seen by svcCheck: the raw entry plus the outageBotId
property the adapters may have assigned (undefined, i.e. none, when the
adapter did not assign one). -/
structure NormItem where
  raw : RawItem
  outageBotId : Option String
deriving DecidableEq

/-- The parsed feed document: rss-parser exposes the item list and, when the
feed carries one, a ttl string. -/
structure FeedObj where
  items : List RawItem
  ttl : Option String
deriving DecidableEq

/-- Adapter result: items plus the optional source-provided next interval. -/
structure ProcResult where
  items : List NormItem
  next : Option String
deriving DecidableEq

/-- Modelled from the spec: consistentId lives in util.js, which is not under
src/.  Spec 4.1 (Fingerprint Generator): return the first candidate that is
present and non-empty, through a stable filesystem-safe encoding (modelled as
the identity on the chosen candidate); fail (undefined) when every candidate
is absent or empty. -/
def firstNonEmptyCand : List (Option String) → Option String
| [] => none
| none :: rest => firstNonEmptyCand rest
| some s :: rest => if s = "" then firstNonEmptyCand rest else some s

/-- Modelled from the spec (see firstNonEmptyCand): the fingerprint over one
field priority list of three candidates. -/
def consistentId (a b c : Option String) : Option String :=
  firstNonEmptyCand [a, b, c]

def serviceSpecificParsers_aws (f : FeedObj) : ProcResult :=
  { items := f.items.map (fun x => { raw := x, outageBotId := consistentId x.pubDate x.isoDate x.guid }),
    next := f.ttl }

/-- The azure adapter returns feedObj.items unchanged: no outageBotId is
assigned, so the property reads as undefined on every item, and no next
interval is provided. -/
def serviceSpecificParsers_azure (f : FeedObj) : ProcResult :=
  { items := f.items.map (fun x => { raw := x, outageBotId := none }),
    next := none }

def serviceSpecificParsers_gcp (f : FeedObj) : ProcResult :=
  { items := f.items.map (fun x => { raw := x, outageBotId := consistentId x.pubDate x.isoDate x.id }),
    next := none }

def serviceSpecificParsers_oracle (f : FeedObj) : ProcResult :=
  { items := f.items.map (fun x => { raw := x, outageBotId := consistentId x.pubDate x.isoDate x.guid }),
    next := none }

/-- JavaScript string interpolation of a possibly-undefined value:
undefined prints as the text undefined. -/
def jsShowOpt : Option String → String
| none => "undefined"
| some s => s

def renderAws (it : NormItem) : String :=
  "AWS event at " ++ jsShowOpt it.raw.pubDate ++ ": \"" ++ jsShowOpt it.raw.title ++ "\" \x2d\x2d " ++ jsShowOpt it.raw.guid

def renderAzure (it : NormItem) : String :=
  "Azure event at " ++ jsShowOpt it.raw.pubDate ++ ": \"" ++ jsShowOpt it.raw.title ++ "\" \x2d\x2d " ++ jsShowOpt it.raw.link

/-- The gcp renderer formats new Date(pubDate).toLocaleString(); that
formatting is environment-dependent, so it is a parameter. -/
def renderGcp (localeString : String → String) (it : NormItem) : String :=
  "GCP event at " ++ localeString (jsShowOpt it.raw.pubDate) ++ ": \"" ++ jsShowOpt it.raw.title ++ "\" \x2d\x2d " ++ jsShowOpt it.raw.link

def renderOracle (it : NormItem) : String :=
  "Oracle Cloud event at " ++ jsShowOpt it.raw.pubDate ++ ": \"" ++ jsShowOpt it.raw.title ++ "\" \x2d\x2d " ++ jsShowOpt it.raw.guid

/-! ## Dedup store and the per-source poll cycle (src/index.js, svcCheck, lines 208-251) -/

/-- The marker-file name for an item: svcName + dash + item.outageBotId
(JavaScript string concatenation, so an unassigned id concatenates as the
text undefined). -/
def markerKey (svc : String) (it : NormItem) : String :=
  svc ++ "-" ++ jsShowOpt it.outageBotId

/-- fs.statSync-based existence test: the marker store is the set of marker
keys whose files exist. -/
def hasMarker (store : List String) (key : String) : Bool :=
  decide (key ∈ store)

/-- The handling of one item inside the map of svcCheck, with the marker
store as the filesystem state visible at its statSync call: an existing
marker means skip (no announcement action); a missing one means the marker
file is written and the announcement closure for the item is returned. -/
def processItem (svc : String) (store : List String) (it : NormItem) :
    List String × Option NormItem :=
  let key := markerKey svc it
  if hasMarker store key then (store, none)
  else (store ++ [key], some it)

/-- The items of one batch that produce announcement actions.  The statSync
calls of one batch all run in the same tick, before any of the unawaited
writeFile calls complete, so every membership test in a batch sees the store
as it was when the cycle began. -/
def cycleNewItems (svc : String) (store0 : List String) (items : List NormItem) : List NormItem :=
  items.filter (fun it => !(hasMarker store0 (markerKey svc it)))

/-- The marker files after the writes of the batch land: one file per
distinct new key (writing the same path twice yields one file). -/
def addMarkers : List String → List String → List String
| store, [] => store
| store, k :: ks => addMarkers (if k ∈ store then store else store ++ [k]) ks

/-- Number(proced.next || config.default.pollingFrequencyMinutes): a falsy
next (absent, or the empty string) selects the configured default; otherwise
Number is applied to the ttl string, modelled for nonnegative decimal digit
strings, with none standing for NaN. -/
def decStrToNat : List Char → Nat → Option Nat
| [], acc => some acc
| c :: cs, acc =>
  if c.isDigit then decStrToNat cs (acc * 10 + (c.toNat - 48)) else none

def jsNumOfString (s : String) : Option Nat :=
  decStrToNat s.toList 0

def computeNextCheck (next : Option String) (defaultMin : Nat) : Option Nat :=
  match next with
  | none => some defaultMin
  | some s => if s = "" then some defaultMin else jsNumOfString s

/-- The externally visible steps of one poll cycle after filtering: each
announcement line said to the channel, then the setTimeout re-arming the
cycle with the computed delay in milliseconds (none models a NaN delay). -/
inductive Ev
| sendLine (line : String)
| schedule (delayMs : Option Nat)
deriving DecidableEq

/-- One whole svcCheck invocation over an already-parsed feed.  Modelled from
the spec for the part that lives in util.js (floodProtect, spec 4.4): the
action list runs strictly in order and svcCheck awaits its completion, so
every send precedes the setTimeout call.  Returns the event trace, the marker
store after the writes land, and the updated announced counter; under silent
running the actions send nothing and the counter is untouched. -/
def runCycle (svc : String) (render : NormItem → String) (defMin : Nat)
    (store0 : List String) (silent : Bool) (announced : Nat) (proced : ProcResult) :
    List Ev × List String × Nat :=
  let newItems := cycleNewItems svc store0 proced.items
  let store1 := addMarkers store0 (newItems.map (markerKey svc))
  let nextCheck := computeNextCheck proced.next defMin
  let sends := if silent then [] else newItems.map render
  ((sends.map Ev.sendLine) ++ [Ev.schedule (nextCheck.map (fun m => m * 60000))],
   store1,
   announced + (if silent then 0 else newItems.length))

/-- What one item of the batch observably does: console.log lines, unhandled
promise rejections, and the announcement action it returns.  The writeFile
call is neither awaited nor given a rejection handler, so a failing write
(decided by the wf oracle) adds an unhandled rejection and logs nothing. -/
structure ItemEffects where
  logs : List String
  rejections : List String
  action : Option NormItem
deriving DecidableEq

def processItemEff (svc : String) (store0 : List String) (wf : String → Bool)
    (cacheDir : String) (it : NormItem) : ItemEffects :=
  let key := markerKey svc it
  let fPath := cacheDir ++ "/" ++ key
  if hasMarker store0 key then
    { logs := ["Skipping already cached " ++ fPath], rejections := [], action := none }
  else
    { logs := ["Caching new item " ++ fPath],
      rejections := if wf fPath then [fPath] else [],
      action := some it }

/-- The map over the batch: each item is handled independently of the fate of
the other items writes. -/
def processBatchEff (svc : String) (store0 : List String) (wf : String → Bool)
    (cacheDir : String) (items : List NormItem) : List ItemEffects :=
  items.map (processItemEff svc store0 wf cacheDir)

/-! ## Command dispatcher (src/index.js, commandHandler, lines 127-175) -/

/-- The configuration values the dispatcher and scheduler read.  The field
trigger is config.default.commandPrefix, botNick is config.irc.server.nick. -/
structure Config where
  trigger : String
  botNick : String
  channel : String
  cacheDir : String
  pollingFrequencyMinutes : Nat
  feeds : List (String × String)
deriving DecidableEq

structure Stats where
  upSince : Nat
  announced : Nat
deriving DecidableEq

/-- Modelled from the spec: fmtDuration lives in util.js, which is not under
src/; the spec only says the uptime command reports the process start time,
so the formatting is modelled as decimal printing. -/
def fmtDuration (d : Nat) : String := toString d

def uptimeLine (st : Stats) : String :=
  "I\x27ve been running for " ++ fmtDuration st.upSince ++ " & have announced " ++
    toString st.announced ++ " outage events during that time."

def feedsLines (cfg : Config) : List String :=
  ("I\x27m following these " ++ toString cfg.feeds.length ++ " RSS feeds:") ::
    cfg.feeds.map (fun p => p.2 ++ " (" ++ p.1 ++ ")")

def privMsgOnlyCommands : List String := ["help"]

/-- The function-valued properties every plain object literal inherits from
Object.prototype; commands[name] finds these for names that are not own
properties of the command table. -/
def objectProtoFnNames : List String :=
  ["constructor", "hasOwnProperty", "isPrototypeOf", "propertyIsEnumerable",
   "toLocaleString", "toString", "valueOf"]

inductive CmdHandler
| uptime
| feeds
| help
| protoFn (name : String)
deriving DecidableEq

/-- JavaScript property lookup commands[command]: the own properties of the
object literal first, then the inherited Object.prototype members; anything
else reads as undefined. -/
def lookupCommand (name : String) : Option CmdHandler :=
  if name = "uptime" then some CmdHandler.uptime
  else if name = "feeds" then some CmdHandler.feeds
  else if name = "help" then some CmdHandler.help
  else if name ∈ objectProtoFnNames then some (CmdHandler.protoFn name)
  else none

/-- The value a resolved handler returns: the command table entries return
arrays of reply lines; the inherited Object.prototype functions, called in
strict mode with an undefined this, return other value shapes. -/
inductive JSValue
| list (lines : List String)
| str (s : String)
| strObj (s : String)
| plainObj
| bool (b : Bool)
deriving DecidableEq

/-- await handler(...args) in strict mode (this is undefined inside the
callee): the three table commands build their reply arrays;
Object.prototype.toString yields the string for an undefined this;
constructor is Object, yielding an empty object or a String wrapper;
isPrototypeOf returns false for a non-object argument; the remaining
inherited functions coerce an undefined this and throw a TypeError. -/
def callHandler (cfg : Config) (st : Stats) : CmdHandler → List String → Except String JSValue
| CmdHandler.uptime, _ => Except.ok (JSValue.list [uptimeLine st])
| CmdHandler.feeds, _ => Except.ok (JSValue.list (feedsLines cfg))
| CmdHandler.help, _ => Except.ok (JSValue.list ["uptime", "feeds", "help"])
| CmdHandler.protoFn n, args =>
  if n = "toString" then Except.ok (JSValue.str "[object Undefined]")
  else if n = "constructor" then
    match args with
    | [] => Except.ok JSValue.plainObj
    | a :: _ => Except.ok (JSValue.strObj a)
  else if n = "isPrototypeOf" then Except.ok (JSValue.bool false)
  else Except.error "TypeError"

/-- JavaScript truthiness of the reply value. -/
def jsTruthy : JSValue → Bool
| JSValue.list _ => true
| JSValue.str s => decide (s ≠ "")
| JSValue.strObj _ => true
| JSValue.plainObj => true
| JSValue.bool b => b

/-- Truthiness of reply.length: arrays and strings expose a length; on the
other shapes the property reads as undefined, which is falsy. -/
def jsLenTruthy : JSValue → Bool
| JSValue.list l => decide (l ≠ [])
| JSValue.str s => decide (s ≠ "")
| JSValue.strObj s => decide (s ≠ "")
| JSValue.plainObj => false
| JSValue.bool _ => false

/-- Observable outcome of one inbound message. -/
inductive Outcome
| ignoredTrigger
| ignoredUnknown
| noReply
| replied (target : String) (lines : List String)
| jsError (msg : String)
deriving DecidableEq

/-- Lines 152-172 of commandHandler: reply targeting and delivery.  When the
reply survives the reply && reply.length guard, a channel-received command
flagged private is redirected to the sender; a reply still headed to the
channel gets its first line prefixed with the sender nick, which for a
non-array reply is a strict-mode write to a read-only index (TypeError); the
reply is then sent line by line via reply.map, which only arrays support. -/
def replyPhase (botNick nick target command : String) (reply : JSValue) : Outcome :=
  let pm0 : Bool := decide (target = botNick)
  let tgt0 : String := if pm0 then nick else target
  if jsTruthy reply && jsLenTruthy reply then
    let forced : Bool := !pm0 && decide (command ∈ privMsgOnlyCommands)
    let tgt : String := if forced then nick else tgt0
    let pm : Bool := pm0 || forced
    if !pm then
      match reply with
      | JSValue.list (a :: rest) => Outcome.replied tgt ((nick ++ ": " ++ a) :: rest)
      | JSValue.list [] => Outcome.replied tgt []
      | _ => Outcome.jsError "TypeError"
    else
      match reply with
      | JSValue.list l => Outcome.replied tgt l
      | _ => Outcome.jsError "TypeError"
  else Outcome.noReply

/-- msgObj.message.trim().split(s+ as a regex): JavaScript whitespace trim
and split into runs of non-whitespace; on an all-whitespace message split
yields one empty token. -/
def jsTrim (l : List Char) : List Char :=
  ((l.dropWhile isJsWS).reverse.dropWhile isJsWS).reverse

def splitWsAux : List Char → List Char → List String
| [], cur => if cur = [] then [] else [String.mk cur.reverse]
| c :: cs, cur =>
  if isJsWS c then
    (if cur = [] then splitWsAux cs [] else String.mk cur.reverse :: splitWsAux cs [])
  else splitWsAux cs (c :: cur)

def jsWords (s : String) : List String :=
  let parts := splitWsAux (jsTrim s.toList) []
  if parts = [] then [""] else parts

/-- The whole commandHandler: tokenize, require the trigger, resolve the
second token through the property lookup (the unknown-handler guard if
(!handler) return), call the handler, and run the reply phase.  A message
with no second token looks up the key undefined, which resolves to nothing,
and is likewise ignored. -/
def commandHandler (cfg : Config) (st : Stats) (nick target message : String) : Outcome :=
  let toks := jsWords message
  let trigger := toks.headD ""
  let command := toks[1]?
  let args := toks.drop 2
  if trigger ≠ cfg.trigger then Outcome.ignoredTrigger
  else
    match command with
    | none => Outcome.ignoredUnknown
    | some cname =>
      match lookupCommand cname with
      | none => Outcome.ignoredUnknown
      | some h =>
        match callHandler cfg st h args with
        | Except.error e => Outcome.jsError e
        | Except.ok reply => replyPhase cfg.botNick nick target cname reply

/-! ## Shutdown handler (src/index.js, main, lines 201-204) -/

/-- Completion behaviour of the awaited ircClient.part(...) call: the
transport either resolves the awaited value at some time or never does. -/
inductive PartAwait
| resolvesAt (t : Nat)
| never
deriving DecidableEq

inductive ShutdownEv
| partCalled
| exitScheduled (delayMs : Nat)
deriving DecidableEq

/-- The SIGINT handler: it calls ircClient.part(config.irc.channel), awaits
it, and only after that await resolves does it run
setTimeout(() => process.exit(0), 1000). -/
def sigintEvents : PartAwait → List ShutdownEv
| PartAwait.resolvesAt _ => [ShutdownEv.partCalled, ShutdownEv.exitScheduled 1000]
| PartAwait.never => [ShutdownEv.partCalled]

/-- The absolute time at which process.exit(0) runs, if ever: one second
after the part await resolves. -/
def sigintExitTime : PartAwait → Option Nat
| PartAwait.resolvesAt t => some (t + 1000)
| PartAwait.never => none

/-! ## Concrete example values -/

def rawEx (g : String) : RawItem :=
  { pubDate := none, isoDate := none, guid := some g, id := none, title := some "t", link := none }

def itemEx1 : NormItem := { raw := rawEx "g1", outageBotId := some "g1" }

def itemEx2 : NormItem := { raw := rawEx "g2", outageBotId := some "g2" }

def azureFeedEx : FeedObj := { items := [rawEx "g1", rawEx "g2"], ttl := none }

def cfgEx : Config :=
  { trigger := "!ob", botNick := "obot", channel := "#chan", cacheDir := "cache",
    pollingFrequencyMinutes := 30, feeds := [("aws", "feedurl")] }

def statsEx : Stats := { upSince := 0, announced := 0 }

/-- A PEM bundle whose certificate block has a BEGIN but no END marker. -/
def c4file : List Char :=
  pkBeginM ++ ('\n' :: 'K' :: '\n' :: (pkEndM ++ ('\n' :: (certBeginM ++ ['\n', 'C']))))

/-! ## Claim theorems -/

/-- C1: when the (sourceId, fingerprint) dedup key of an item is present in
the marker store at the time the item is presented again, the membership
check reports it as seen, no announcement action is produced for it, and the
store is unchanged.  Stated over any first presentation: afterwards the key
is in the store and a second presentation is skipped. -/
theorem dedup_store_idempotent (svc : String) (store : List String) (it : NormItem) :
    hasMarker (processItem svc store it).1 (markerKey svc it) = true ∧
    (processItem svc (processItem svc store it).1 it).2 = none ∧
    (processItem svc (processItem svc store it).1 it).1 = (processItem svc store it).1 := by
  by_cases h : markerKey svc it ∈ store <;> simp [processItem, hasMarker, h]

/-- C2: the azure adapter does not assign outageBotId, so azure items carry
no fingerprint (the field reads as undefined) and all azure items collapse to
the single dedup key azure-undefined, here shown for two items with distinct
guids. -/
theorem azure_normalize_untagged :
    ((serviceSpecificParsers_azure azureFeedEx).items.map NormItem.outageBotId) = [none, none] ∧
    ((serviceSpecificParsers_azure azureFeedEx).items.map (markerKey "azure")) =
      ["azure-undefined", "azure-undefined"] := ⟨rfl, rfl⟩

/-- C4: on a bundle whose certificate block lacks its END marker, extraction
does not fail: the some(x => !x) guard sees only truthy values (objects are
truthy), so a partial bundle is returned whose certificate slot is still the
bare start-offset object. -/
theorem extract_missing_cert_end_returns_partial :
    extractCert c4file =
      Except.ok { private_key := Elem.doneE (pkBeginM ++ ('\n' :: 'K' :: '\n' :: pkEndM)),
                  certificate := Elem.startedE 56 } := rfl

/-- C6: a failing marker-file write leaves an unhandled promise rejection,
logs only the ordinary caching line (no failure is logged), while the item
still yields its announcement action and the following item of the batch is
processed normally. -/
theorem marker_write_failure_unlogged :
    processItemEff "aws" [] (fun _ => true) "cache" itemEx1 =
      { logs := ["Caching new item cache/aws-g1"], rejections := ["cache/aws-g1"],
        action := some itemEx1 } ∧
    processBatchEff "aws" [] (fun _ => true) "cache" [itemEx1, itemEx2] =
      [{ logs := ["Caching new item cache/aws-g1"], rejections := ["cache/aws-g1"],
         action := some itemEx1 },
       { logs := ["Caching new item cache/aws-g2"], rejections := ["cache/aws-g2"],
         action := some itemEx2 }] := ⟨rfl, rfl⟩

/-- C7: reply targeting.  A command received as a direct message (target is
the bot nick) replies to the sender without a prefix; a channel command not
flagged direct-message-only replies in the channel with the first line
prefixed by the sender; a channel command flagged direct-message-only replies
to the sender without a prefix. -/
theorem command_reply_targeting (botNick nick target command : String)
    (a : String) (rest : List String) :
    (target = botNick →
      replyPhase botNick nick target command (JSValue.list (a :: rest)) =
        Outcome.replied nick (a :: rest)) ∧
    (target ≠ botNick → command ∉ privMsgOnlyCommands →
      replyPhase botNick nick target command (JSValue.list (a :: rest)) =
        Outcome.replied target ((nick ++ ": " ++ a) :: rest)) ∧
    (target ≠ botNick → command ∈ privMsgOnlyCommands →
      replyPhase botNick nick target command (JSValue.list (a :: rest)) =
        Outcome.replied nick (a :: rest)) := by
  refine ⟨fun h => ?_, fun h hc => ?_, fun h hc => ?_⟩
  · simp [replyPhase, jsTruthy, jsLenTruthy, h]
  · simp [replyPhase, jsTruthy, jsLenTruthy, h, hc]
  · simp [replyPhase, jsTruthy, jsLenTruthy, h, hc]

/-- C7 witness: the three targeting cases at concrete inputs. -/
theorem command_reply_targeting_witness :
    replyPhase "obot" "alice" "obot" "uptime" (JSValue.list ["a", "b"]) =
      Outcome.replied "alice" ["a", "b"] ∧
    replyPhase "obot" "alice" "#chan" "uptime" (JSValue.list ["a", "b"]) =
      Outcome.replied "#chan" ["alice: a", "b"] ∧
    replyPhase "obot" "alice" "#chan" "help" (JSValue.list ["a", "b"]) =
      Outcome.replied "alice" ["a", "b"] :=
  ⟨(command_reply_targeting "obot" "alice" "obot" "uptime" "a" ["b"]).1 rfl,
   (command_reply_targeting "obot" "alice" "#chan" "uptime" "a" ["b"]).2.1
     (by decide) (by decide),
   (command_reply_targeting "obot" "alice" "#chan" "help" "a" ["b"]).2.2
     (by decide) (by decide)⟩

/-- C8: a second token that is not in the command table is not always
silently ignored: commands[command] finds inherited Object.prototype members,
so !ob toString resolves to a function whose reply is a plain string and the
dispatcher throws a TypeError (in the channel at the first-line prefix
assignment, in a direct message at reply.map); a token absent from the table
and the prototype, like frobnicate, is silently ignored. -/
theorem unknown_command_proto_lookup_error :
    commandHandler cfgEx statsEx "alice" "#chan" "!ob toString" = Outcome.jsError "TypeError" ∧
    commandHandler cfgEx statsEx "alice" "obot" "!ob toString" = Outcome.jsError "TypeError" ∧
    commandHandler cfgEx statsEx "alice" "#chan" "!ob frobnicate" = Outcome.ignoredUnknown :=
  ⟨rfl, rfl, rfl⟩

/-- C10: the SIGINT handler arms the one-second exit timer only after the
awaited part resolves; when the part operation never completes, process.exit
is never scheduled and shutdown hangs, while a part resolving at time t leads
to exit at t + 1000 milliseconds. -/
theorem shutdown_hang_on_unresolved_part :
    sigintExitTime PartAwait.never = none ∧
    sigintEvents PartAwait.never = [ShutdownEv.partCalled] ∧
    (∀ t : Nat, sigintExitTime (PartAwait.resolvesAt t) = some (t + 1000)) :=
  ⟨rfl, rfl, fun _ => rfl⟩

def itemEx3 : NormItem := { raw := rawEx "g3", outageBotId := some "g3" }

/-- Fresh, pairwise-distinct keys are all appended by the marker writes. -/
theorem addMarkers_fresh (ks : List String) :
    ∀ store : List String, (∀ k ∈ ks, k ∉ store) → ks.Nodup →
      addMarkers store ks = store ++ ks := by
  induction ks with
  | nil => intro store _ _; simp [addMarkers]
  | cons k ks ih =>
    intro store hfresh hnd
    have hk : k ∉ store := hfresh k (List.mem_cons_self k ks)
    have hnotin : k ∉ ks := (List.nodup_cons.mp hnd).1
    have step : addMarkers store (k :: ks) = addMarkers (store ++ [k]) ks := by
      simp [addMarkers, hk]
    have hfresh2 : ∀ k2 ∈ ks, k2 ∉ store ++ [k] := by
      intro k2 hk2
      simp only [List.mem_append, List.mem_singleton]
      push_neg
      exact ⟨hfresh k2 (List.mem_cons_of_mem k hk2), fun e => hnotin (e ▸ hk2)⟩
    rw [step, ih (store ++ [k]) hfresh2 (List.nodup_cons.mp hnd).2]
    simp

/-- C3: the silent first run over a feed of items none of which have markers
yet (with pairwise-distinct dedup keys): every key is added to the store --
exactly as many new markers as items -- while no announcement line is sent
and the announced counter keeps its value. -/
theorem silent_first_run_markers (svc : String) (render : NormItem → String) (defMin : Nat)
    (store0 : List String) (ann : Nat) (proced : ProcResult)
    (hfresh : ∀ it ∈ proced.items, hasMarker store0 (markerKey svc it) = false)
    (hnodup : (proced.items.map (markerKey svc)).Nodup) :
    (runCycle svc render defMin store0 true ann proced).2.1 =
      store0 ++ proced.items.map (markerKey svc) ∧
    (runCycle svc render defMin store0 true ann proced).2.1.length =
      store0.length + proced.items.length ∧
    (∀ line, Ev.sendLine line ∉ (runCycle svc render defMin store0 true ann proced).1) ∧
    (runCycle svc render defMin store0 true ann proced).2.2 = ann := by
  have hnew : cycleNewItems svc store0 proced.items = proced.items := by
    apply List.filter_eq_self.mpr
    intro a ha
    rw [hfresh a ha]
    rfl
  have hmem : ∀ k ∈ proced.items.map (markerKey svc), k ∉ store0 := by
    intro k hk
    obtain ⟨it, hit, rfl⟩ := List.mem_map.mp hk
    simpa [hasMarker] using hfresh it hit
  have h1 : (runCycle svc render defMin store0 true ann proced).2.1 =
      store0 ++ proced.items.map (markerKey svc) := by
    simp only [runCycle, hnew]
    exact addMarkers_fresh _ store0 hmem hnodup
  refine ⟨h1, ?_, ?_, ?_⟩
  · rw [h1]; simp
  · intro line
    simp [runCycle]
  · simp [runCycle]

/-- C3 witness: three unseen items on an empty store. -/
theorem silent_first_run_markers_witness :
    (runCycle "aws" renderAws 30 [] true 0
        { items := [itemEx1, itemEx2, itemEx3], next := some "5" }).2.1 =
      [] ++ [itemEx1, itemEx2, itemEx3].map (markerKey "aws") ∧
    (runCycle "aws" renderAws 30 [] true 0
        { items := [itemEx1, itemEx2, itemEx3], next := some "5" }).2.1.length =
      List.length ([] : List String) + [itemEx1, itemEx2, itemEx3].length ∧
    (∀ line, Ev.sendLine line ∉
      (runCycle "aws" renderAws 30 [] true 0
        { items := [itemEx1, itemEx2, itemEx3], next := some "5" }).1) ∧
    (runCycle "aws" renderAws 30 [] true 0
        { items := [itemEx1, itemEx2, itemEx3], next := some "5" }).2.2 = 0 :=
  silent_first_run_markers "aws" renderAws 30 [] 0
    { items := [itemEx1, itemEx2, itemEx3], next := some "5" } (by decide) (by decide)

/-- C9: the rescheduling of svcCheck.  The next delay is the source-provided
override (in minutes, converted to milliseconds) whenever the normalize
result carries one, the configured default otherwise, and the schedule event
is the last event of the cycle: everything before it is an announcement
send. -/
theorem poll_reschedule_interval (svc : String) (render : NormItem → String) (defMin : Nat)
    (store0 : List String) (silent : Bool) (ann : Nat) (proced : ProcResult) :
    (proced.next = none →
      (runCycle svc render defMin store0 silent ann proced).1.getLast? =
        some (Ev.schedule (some (defMin * 60000)))) ∧
    (∀ s k, proced.next = some s → s ≠ "" → jsNumOfString s = some k →
      (runCycle svc render defMin store0 silent ann proced).1.getLast? =
        some (Ev.schedule (some (k * 60000)))) ∧
    (∀ e ∈ (runCycle svc render defMin store0 silent ann proced).1.dropLast,
      ∃ line, e = Ev.sendLine line) := by
  refine ⟨fun h => ?_, fun s k h1 h2 h3 => ?_, fun e he => ?_⟩
  · simp only [runCycle]
    rw [List.getLast?_concat]
    simp [computeNextCheck, h]
  · simp only [runCycle]
    rw [List.getLast?_concat]
    simp [computeNextCheck, h1, h2, h3]
  · simp only [runCycle] at he
    rw [List.dropLast_concat] at he
    obtain ⟨line, _, rfl⟩ := List.mem_map.mp he
    exact ⟨line, rfl⟩

/-- C9 witness: a ttl override of five minutes is used; an absent override
falls back to the configured thirty minutes. -/
theorem poll_reschedule_interval_witness :
    (runCycle "aws" renderAws 30 [] false 0 { items := [], next := some "5" }).1.getLast? =
      some (Ev.schedule (some (5 * 60000))) ∧
    (runCycle "aws" renderAws 30 [] false 0 { items := [], next := none }).1.getLast? =
      some (Ev.schedule (some (30 * 60000))) :=
  ⟨(poll_reschedule_interval "aws" renderAws 30 [] false 0
      { items := [], next := some "5" }).2.1 "5" 5 rfl (by decide) rfl,
   (poll_reschedule_interval "aws" renderAws 30 [] false 0
      { items := [], next := none }).1 rfl⟩

/-! ## Scanner lemmas for the certificate round-trip -/

theorem stripP_some_length {p l r : List Char} (h : stripP p l = some r) :
    l.length = p.length + r.length := by
  induction p generalizing l with
  | nil =>
    simp only [stripP, Option.some.injEq] at h
    subst h
    simp
  | cons x xs ih =>
    cases l with
    | nil => simp [stripP] at h
    | cons c cs =>
      by_cases hx : x = c
      · simp only [stripP, if_pos hx] at h
        simp only [List.length_cons, ih h]
        omega
      · simp [stripP, hx] at h

theorem matchType_some_le {l r : List Char} {ty : PType} (h : matchType l = some (ty, r)) :
    r.length ≤ l.length := by
  unfold matchType at h
  cases h1 : stripP privW l with
  | some l2 =>
    cases l2 with
    | nil => simp only [h1] at h; simp at h
    | cons c l2t =>
      simp only [h1] at h
      by_cases hw : isJsWS c
      · rw [if_pos hw] at h
        cases h2 : stripP keyW l2t with
        | none => simp only [h2] at h; simp at h
        | some l3 =>
          simp only [h2] at h
          cases h3 : stripP dashes5 l3 with
          | none => simp only [h3] at h; simp at h
          | some r2 =>
            simp only [h3, Option.some.injEq, Prod.mk.injEq] at h
            obtain ⟨hty, hr⟩ := h
            subst hr
            have e1 := stripP_some_length h1
            have e2 := stripP_some_length h2
            have e3 := stripP_some_length h3
            simp only [List.length_cons] at e1
            omega
      · rw [if_neg hw] at h; simp at h
  | none =>
    simp only [h1] at h
    cases h2 : stripP certW l with
    | none => simp only [h2] at h; simp at h
    | some l2 =>
      simp only [h2] at h
      cases h3 : stripP dashes5 l2 with
      | none => simp only [h3] at h; simp at h
      | some r2 =>
        simp only [h3, Option.some.injEq, Prod.mk.injEq] at h
        obtain ⟨hty, hr⟩ := h
        subst hr
        have e2 := stripP_some_length h2
        have e3 := stripP_some_length h3
        omega

theorem matchState_some_le {l r : List Char} {st : BState} (h : matchState l = some (st, r)) :
    r.length ≤ l.length := by
  unfold matchState at h
  cases h1 : stripP beginW l with
  | some l1 =>
    simp only [h1, Option.some.injEq, Prod.mk.injEq] at h
    obtain ⟨hst, hr⟩ := h
    subst hr
    have := stripP_some_length h1
    omega
  | none =>
    simp only [h1] at h
    cases h2 : stripP endW l with
    | none => simp only [h2] at h; simp at h
    | some l1 =>
      simp only [h2, Option.some.injEq, Prod.mk.injEq] at h
      obtain ⟨hst, hr⟩ := h
      subst hr
      have := stripP_some_length h2
      omega

theorem matchHere_some_lt {l r : List Char} {st : BState} {ty : PType}
    (h : matchHere l = some (st, ty, r)) : r.length < l.length := by
  unfold matchHere at h
  cases h1 : stripP dashes5 l with
  | none => simp only [h1] at h; simp at h
  | some l1 =>
    simp only [h1] at h
    cases h2 : matchState l1 with
    | none => simp only [h2] at h; simp at h
    | some p =>
      obtain ⟨st2, l2⟩ := p
      simp only [h2] at h
      cases l2 with
      | nil => simp at h
      | cons c l3 =>
        dsimp only at h
        by_cases hw : isJsWS c
        · rw [if_pos hw] at h
          cases h3 : matchType l3 with
          | none => simp only [h3] at h; simp at h
          | some q =>
            obtain ⟨ty2, l4⟩ := q
            simp only [h3, Option.some.injEq, Prod.mk.injEq] at h
            obtain ⟨hst, hty, hr⟩ := h
            subst hr
            have e1 := stripP_some_length h1
            have e2 := matchState_some_le h2
            have e3 := matchType_some_le h3
            simp only [List.length_cons] at e2
            omega
        · rw [if_neg hw] at h; simp at h

theorem scanAux_succ_cons (f : Nat) (c : Char) (cs : List Char) (i : Nat) :
    scanAux (f + 1) (c :: cs) i =
      match matchHere (c :: cs) with
      | some (st, ty, rest) =>
        { idx := i, stop := i + boundLen st, state := st, ptype := ty } ::
          scanAux f rest (i + boundLen st)
      | none => scanAux f cs (i + 1) := rfl

/-- The scan result does not depend on the fuel once the fuel covers the
input length. -/
theorem scanAux_fuel (f1 : Nat) : ∀ (f2 : Nat) (l : List Char) (i : Nat),
    l.length ≤ f1 → l.length ≤ f2 → scanAux f1 l i = scanAux f2 l i := by
  induction f1 with
  | zero =>
    intro f2 l i h1 _
    have hl : l = [] := List.eq_nil_of_length_eq_zero (Nat.le_zero.mp h1)
    subst hl
    cases f2 <;> rfl
  | succ f ih =>
    intro f2 l i h1 h2
    cases l with
    | nil => cases f2 <;> rfl
    | cons c cs =>
      cases f2 with
      | zero => simp at h2
      | succ g =>
        rw [scanAux_succ_cons, scanAux_succ_cons]
        cases hm : matchHere (c :: cs) with
        | some p =>
          obtain ⟨st, ty, rest⟩ := p
          have hlt := matchHere_some_lt hm
          simp only [List.length_cons] at h1 h2 hlt
          dsimp only
          congr 1
          exact ih g rest _ (by omega) (by omega)
        | none =>
          simp only [List.length_cons] at h1 h2
          dsimp only
          exact ih g cs (i + 1) (by omega) (by omega)

theorem matchHere_none_of_head (c : Char) (l : List Char) (h : c ≠ '-') :
    matchHere (c :: l) = none := by
  have hs : stripP dashes5 (c :: l) = none := by
    simp [stripP, dashes5, Ne.symm h]
  simp [matchHere, hs]

/-- Scanning skips a dash-free prefix: no boundary match can start inside
it, since every boundary string starts with a dash. -/
theorem scanAux_skip (xs : List Char) :
    ∀ (f : Nat) (l : List Char) (i : Nat), (∀ c ∈ xs, c ≠ '-') →
      (xs ++ l).length ≤ f → scanAux f (xs ++ l) i = scanAux l.length l (i + xs.length) := by
  induction xs with
  | nil =>
    intro f l i _ hf
    simp only [List.nil_append, List.length_nil, Nat.add_zero]
    exact scanAux_fuel f l.length l i (by simpa using hf) le_rfl
  | cons x xs ih =>
    intro f l i hx hf
    cases f with
    | zero =>
      simp only [List.cons_append, List.length_cons] at hf
      omega
    | succ g =>
      rw [List.cons_append, scanAux_succ_cons,
        matchHere_none_of_head x (xs ++ l) (hx x (List.mem_cons_self x xs))]
      dsimp only
      have heq : i + (x :: xs).length = (i + 1) + xs.length := by
        simp only [List.length_cons]
        omega
      rw [heq]
      apply ih g l (i + 1) (fun c hc => hx c (List.mem_cons_of_mem x hc))
      simp only [List.cons_append, List.length_cons] at hf
      omega

theorem scanAux_all_skip (xs : List Char) (f i : Nat) (hx : ∀ c ∈ xs, c ≠ '-')
    (hf : xs.length ≤ f) : scanAux f xs i = [] := by
  have h0 := scanAux_skip xs f [] i hx (by simpa using hf)
  simpa using h0

/-- Scanning at a position where a boundary match starts emits that match and
continues right after it, with canonical fuel. -/
theorem scanAux_at_match {m r : List Char} {st : BState} {ty : PType} (f i : Nat)
    (hm : matchHere (m ++ r) = some (st, ty, r)) (hne : m ≠ [])
    (hf : (m ++ r).length ≤ f) :
    scanAux f (m ++ r) i =
      { idx := i, stop := i + boundLen st, state := st, ptype := ty } ::
        scanAux r.length r (i + boundLen st) := by
  cases m with
  | nil => exact absurd rfl hne
  | cons a as =>
    cases f with
    | zero =>
      simp only [List.cons_append, List.length_cons] at hf
      omega
    | succ g =>
      rw [List.cons_append] at hm hf ⊢
      rw [scanAux_succ_cons, hm]
      dsimp only
      congr 1
      apply scanAux_fuel
      · have hlt := matchHere_some_lt hm
        simp only [List.length_cons, List.length_append] at hlt hf
        omega
      · exact le_rfl

theorem matchHere_pkBeginM (r : List Char) :
    matchHere (pkBeginM ++ r) = some (BState.isBegin, PType.privateKey, r) := rfl

theorem matchHere_pkEndM (r : List Char) :
    matchHere (pkEndM ++ r) = some (BState.isEnd, PType.privateKey, r) := rfl

theorem matchHere_certBeginM (r : List Char) :
    matchHere (certBeginM ++ r) = some (BState.isBegin, PType.certificate, r) := rfl

theorem matchHere_certEndM (r : List Char) :
    matchHere (certEndM ++ r) = some (BState.isEnd, PType.certificate, r) := rfl

theorem pkBeginM_length : pkBeginM.length = 27 := rfl

theorem pkEndM_length : pkEndM.length = 25 := rfl

theorem certBeginM_length : certBeginM.length = 27 := rfl

theorem certEndM_length : certEndM.length = 25 := rfl

theorem take_len_append {α : Type} (a b : List α) : (a ++ b).take a.length = a := by
  induction a with
  | nil => simp
  | cons x xs ih => simp [ih]

theorem drop_len_append {α : Type} (a b : List α) : (a ++ b).drop a.length = b := by
  induction a with
  | nil => simp
  | cons x xs ih => simp [ih]

theorem take_eq_of_len {α : Type} (a b : List α) (n : Nat) (hn : n = a.length) :
    (a ++ b).take n = a := by
  subst hn
  exact take_len_append a b

theorem drop_eq_of_len {α : Type} (a b : List α) (n : Nat) (hn : n = a.length) :
    (a ++ b).drop n = b := by
  subst hn
  exact drop_len_append a b

/-- The boundary matches of a well-formed bundle: private key block first at
offset 0, certificate block second, with dash-free block bodies, separator
and trailer (PEM base64 payloads contain no dash). -/
theorem scanPem_wellformed (b1 sep b2 t : List Char)
    (h1 : ∀ c ∈ b1, c ≠ '-') (h2 : ∀ c ∈ sep, c ≠ '-')
    (h3 : ∀ c ∈ b2, c ≠ '-') (h4 : ∀ c ∈ t, c ≠ '-') :
    scanPem (pkBeginM ++ (b1 ++ (pkEndM ++ (sep ++ (certBeginM ++ (b2 ++ (certEndM ++ t))))))) =
      [{ idx := 0, stop := 27, state := BState.isBegin, ptype := PType.privateKey },
       { idx := 27 + b1.length, stop := 52 + b1.length,
         state := BState.isEnd, ptype := PType.privateKey },
       { idx := 52 + b1.length + sep.length, stop := 79 + b1.length + sep.length,
         state := BState.isBegin, ptype := PType.certificate },
       { idx := 79 + b1.length + sep.length + b2.length,
         stop := 104 + b1.length + sep.length + b2.length,
         state := BState.isEnd, ptype := PType.certificate }] := by
  unfold scanPem
  rw [scanAux_at_match _ 0 (matchHere_pkBeginM _) (by decide) le_rfl]
  rw [scanAux_skip b1 _ _ _ h1 le_rfl]
  rw [scanAux_at_match _ _ (matchHere_pkEndM _) (by decide) le_rfl]
  rw [scanAux_skip sep _ _ _ h2 le_rfl]
  rw [scanAux_at_match _ _ (matchHere_certBeginM _) (by decide) le_rfl]
  rw [scanAux_skip b2 _ _ _ h3 le_rfl]
  rw [scanAux_at_match _ _ (matchHere_certEndM _) (by decide) le_rfl]
  rw [scanAux_all_skip t _ _ h4 le_rfl]
  simp only [boundLen, List.cons.injEq, PemMatch.mk.injEq, and_true, true_and]
  omega

/-- C5: a well-formed bundle -- private-key block starting at offset 0, then
a certificate block -- extracts successfully into the two blocks, each a span
of the input that includes its own BEGIN and END boundary lines and is
character-identical to the corresponding delimited span of the input.  The
block bodies, separator and trailer are dash-free, as PEM base64 payloads
are. -/
theorem extract_wellformed_roundtrip (b1 sep b2 t : List Char)
    (h1 : ∀ c ∈ b1, c ≠ '-') (h2 : ∀ c ∈ sep, c ≠ '-')
    (h3 : ∀ c ∈ b2, c ≠ '-') (h4 : ∀ c ∈ t, c ≠ '-') :
    extractCert (pkBeginM ++ (b1 ++ (pkEndM ++ (sep ++ (certBeginM ++ (b2 ++ (certEndM ++ t))))))) =
      Except.ok { private_key := Elem.doneE (pkBeginM ++ b1 ++ pkEndM),
                  certificate := Elem.doneE (certBeginM ++ b2 ++ certEndM) } := by
  have hscan := scanPem_wellformed b1 sep b2 t h1 h2 h3 h4
  have hassoc1 : pkBeginM ++ (b1 ++ (pkEndM ++ (sep ++ (certBeginM ++ (b2 ++ (certEndM ++ t)))))) =
      (pkBeginM ++ b1 ++ pkEndM) ++ (sep ++ (certBeginM ++ (b2 ++ (certEndM ++ t)))) := by
    simp [List.append_assoc]
  have hassoc2 : pkBeginM ++ (b1 ++ (pkEndM ++ (sep ++ (certBeginM ++ (b2 ++ (certEndM ++ t)))))) =
      (pkBeginM ++ b1 ++ pkEndM ++ sep) ++ ((certBeginM ++ b2 ++ certEndM) ++ t) := by
    simp [List.append_assoc]
  have htake : (pkBeginM ++ (b1 ++ (pkEndM ++ (sep ++ (certBeginM ++ (b2 ++ (certEndM ++ t))))))).take
      (52 + b1.length) = pkBeginM ++ b1 ++ pkEndM := by
    rw [hassoc1]
    apply take_eq_of_len
    simp only [List.length_append, pkBeginM_length, pkEndM_length]
    omega
  have hdroptake : ((pkBeginM ++ (b1 ++ (pkEndM ++ (sep ++ (certBeginM ++ (b2 ++ (certEndM ++ t))))))).drop
        (52 + b1.length + sep.length)).take
        (104 + b1.length + sep.length + b2.length - (52 + b1.length + sep.length)) =
      certBeginM ++ b2 ++ certEndM := by
    rw [hassoc2]
    rw [drop_eq_of_len (pkBeginM ++ b1 ++ pkEndM ++ sep) ((certBeginM ++ b2 ++ certEndM) ++ t)
        (52 + b1.length + sep.length)
        (by simp only [List.length_append, pkBeginM_length, pkEndM_length]; omega)]
    exact take_eq_of_len _ _ _
      (by simp only [List.length_append, certBeginM_length, certEndM_length]; omega)
  have hf1 : elemFalsy (Elem.doneE (pkBeginM ++ b1 ++ pkEndM)) = false := rfl
  have hf2 : elemFalsy (Elem.doneE (certBeginM ++ b2 ++ certEndM)) = false := rfl
  unfold extractCert
  rw [hscan]
  simp [pemFold, pemStep, Elems.get, Elems.set, htake, hdroptake, hf1, hf2]
  exact ⟨rfl, rfl⟩

/-- C5 witness: a concrete well-formed bundle round-trips. -/
theorem extract_wellformed_roundtrip_witness :
    extractCert (pkBeginM ++ (['A'] ++ (pkEndM ++ (['\n'] ++ (certBeginM ++
        (['B'] ++ (certEndM ++ ([] : List Char)))))))) =
      Except.ok { private_key := Elem.doneE (pkBeginM ++ ['A'] ++ pkEndM),
                  certificate := Elem.doneE (certBeginM ++ ['B'] ++ certEndM) } :=
  extract_wellformed_roundtrip ['A'] ['\n'] ['B'] []
    (by decide) (by decide) (by decide) (by decide)
